import Mathlib

/-!
Shallow embedding of the checkpoint-tools repository
(src/checkpoint_tools/__main__.py) and of the parts of its util module that
the CLI calls.  State dicts are modelled as ordered association lists (the
Python dict), tensors as shape/dtype/flattened rational data, and each CLI
command as a pure function over a modelled filesystem that also emits the
trace of pipeline stages it runs.
-/

namespace CheckpointTools

/-- Element formats (torch dtypes) occurring in the pipeline.  The two
quantized kinds are packed representations, not plain element formats. -/
inductive DType where
  | float64 | float32 | float16 | bfloat16
  | float8e4m3fn | float8e4m3fnuz | float8e5m2 | float8e5m2fnuz
  | int64 | int32 | int8 | uint8 | boolT
  | nf4q | int8q
  deriving DecidableEq

/-- Whether a dtype is a plain floating-point element format. -/
def DType.isFloatingPoint : DType → Bool
  | .float64 | .float32 | .float16 | .bfloat16 => true
  | .float8e4m3fn | .float8e4m3fnuz | .float8e5m2 | .float8e5m2fnuz => true
  | _ => false

/-- Whether a dtype is a packed quantized kind. -/
def DType.isQuantized : DType → Bool
  | .nf4q | .int8q => true
  | _ => false

/-- A tensor: a shape and a flat list of element values (rationals model the
numeric values; integer/bool tensors also carry their values here). -/
structure Tensor where
  shape : List Nat
  dtype : DType
  data : List ℚ
  deriving DecidableEq

/-- torch numel: product of the shape. -/
def Tensor.numel (t : Tensor) : Nat := t.shape.foldl (· * ·) 1

/-- Ordered association list modelling a Python dict. -/
abbrev Dict (α : Type) : Type := List (String × α)

/-- First value stored under a key. -/
def lookupKey {α : Type} : Dict α → String → Option α
  | [], _ => none
  | (k2, v) :: rest, k => if k2 = k then some v else lookupKey rest k

/-- Python `k in d`. -/
def containsKey {α : Type} (d : Dict α) (k : String) : Bool :=
  (lookupKey d k).isSome

/-- Python `d[k] = v`: replace the value in place when the key exists,
keeping its position, append at the end otherwise. -/
def updateOne {α : Type} : Dict α → String → α → Dict α
  | [], k, v => [(k, v)]
  | (k0, v0) :: rest, k, v =>
      if k0 = k then (k, v) :: rest else (k0, v0) :: updateOne rest k v

/-- Python `d1.update(d2)`. -/
def dictUpdate {α : Type} (d1 d2 : Dict α) : Dict α :=
  d2.foldl (fun d kv => updateOne d kv.1 kv.2) d1

/-- Iteration order of the dict's keys. -/
def keysOf {α : Type} (d : Dict α) : List String := d.map Prod.fst

/-- A state dict: ordered mapping from tensor name to tensor. -/
abbrev StateDict : Type := Dict Tensor

/-- Sum of numel over the state dict, as in the metadata command. -/
def total_params (sd : StateDict) : Nat :=
  sd.foldl (fun a kv => a + kv.2.numel) 0

/-- The unit suffixes of the metadata command. -/
def abbrevUnits : List String := ["", "K", "M", "B", "T"]

/-- The Python `for unit in units: if v < 1000: break; v /= 1000` loop.
The float loop variable `abbreviated_params` is carried as an exact
fraction (numerator, denominator); `v < 1000` becomes `n < 1000 * d`. -/
def abbrevLoop : ℕ × ℕ → List String → (ℕ × ℕ) × String
  | (n, d), [] => ((n, d), "")
  | (n, d), [u] => if n < 1000 * d then ((n, d), u) else ((n, 1000 * d), u)
  | (n, d), u :: u2 :: rest =>
      if n < 1000 * d then ((n, d), u) else abbrevLoop (n, 1000 * d) (u2 :: rest)

/-- `"{0:.0f}"` on the nonnegative fraction n/d: round to nearest integer
(the model rounds exact halves up; Python's float formatting rounds them
to even, which agrees away from ties). -/
def formatFixed0 (n d : ℕ) : String := toString ((2 * n + d) / (2 * d))

/-- `"{0:.1f}"` on the nonnegative fraction n/d. -/
def formatFixed1 (n d : ℕ) : String :=
  let t := (20 * n + d) / (2 * d)
  toString (t / 10) ++ "." ++ toString (t % 10)

/-- The abbreviation logic of the metadata command: scale by thousands,
pick one decimal digit exactly when a unit is present and the scaled value
is below 10, and append the unit. -/
def abbreviateParams (total : Nat) : String :=
  let vu := abbrevLoop (total, 1) abbrevUnits
  let n := vu.1.1
  let d := vu.1.2
  let prec : Nat := if vu.2 = "" then 0 else if n < 10 * d then 1 else 0
  (if prec = 0 then formatFixed0 n d else formatFixed1 n d) ++ vu.2

/-- The state dict of the C6 scenario: two tensors of shapes
(1000, 1000) and (500,). -/
def metadataExampleSD : StateDict :=
  [("a", ⟨[1000, 1000], DType.float32, []⟩),
   ("b", ⟨[500], DType.float32, []⟩)]

/-- `pat` is a prefix of `l`. -/
def isPrefOf : List Char → List Char → Bool
  | [], _ => true
  | _ :: _, [] => false
  | a :: as, b :: bs => a = b && isPrefOf as bs

/-- `pat` occurs as a contiguous sublist of `l`. -/
def containsSub (pat : List Char) : List Char → Bool
  | [] => isPrefOf pat []
  | c :: rest => isPrefOf pat (c :: rest) || containsSub pat rest

/-- Python `str.replace` on character lists: scan left to right, replacing
each occurrence of `pat` by `rep` and resuming after it.  `fuel` bounds the
recursion; it is instantiated with the length of the scanned list, which
suffices because every step consumes at least one character. -/
def replaceAllAux (pat rep : List Char) : ℕ → List Char → List Char
  | 0, l => l
  | _ + 1, [] => []
  | fuel + 1, c :: rest =>
      if pat ≠ [] && isPrefOf pat (c :: rest) then
        rep ++ replaceAllAux pat rep fuel ((c :: rest).drop pat.length)
      else c :: replaceAllAux pat rep fuel rest

/-- Python `str.replace(pat, rep)` (all occurrences, left to right). -/
def strReplaceAll (pat rep s : String) : String :=
  ⟨replaceAllAux pat.data rep.data s.data.length s.data⟩

/-- Python `s.partition(":")` with the separator discarded, as the command
code does with `key.partition(":")`: everything before the first colon and
everything after it; without a colon the whole string and `""`. -/
def splitAtColon : List Char → List Char × List Char
  | [] => ([], [])
  | c :: rest =>
      if c = ':' then ([], rest)
      else
        let p := splitAtColon rest
        (c :: p.1, p.2)

/-- The `(key, _, value)` pair taken from `key.partition(":")`. -/
def partitionColon (s : String) : String × String :=
  let p := splitAtColon s.data
  (⟨p.1⟩, ⟨p.2⟩)

/-- `dict((key, value) for key, _, value in (key.partition(":") for key in
replace_key))`: parsed pairs inserted into a dict in order, a repeated old
part keeping its first position but taking the later new part. -/
def parseReplaceKeys (replace_key : List String) : Dict String :=
  replace_key.foldl
    (fun d s => updateOne d (partitionColon s).1 (partitionColon s).2) []

/-- Errors raised by the util module (spec section 7 taxonomy; only the
ones reachable from the embedded commands are modelled). -/
inductive UtilError where
  | loadError | keyCollisionError
  deriving DecidableEq

/-- Decidable equality of util results, for concrete evaluation. -/
instance {e a : Type} [DecidableEq e] [DecidableEq a] : DecidableEq (Except e a)
  | .ok x, .ok y =>
      if h : x = y then isTrue (by rw [h]) else isFalse (fun hc => h (Except.ok.inj hc))
  | .ok _, .error _ => isFalse (fun hc => Except.noConfusion hc)
  | .error _, .ok _ => isFalse (fun hc => Except.noConfusion hc)
  | .error x, .error y =>
      if h : x = y then isTrue (by rw [h]) else isFalse (fun hc => h (Except.error.inj hc))

/-- Modelled from the spec: the rename stage of the absent util module
applies every rename rule to a key by substring replacement, in the
dict's registration order. -/
def applyReplaceKeys (replace_keys : Dict String) (k : String) : String :=
  replace_keys.foldl (fun kk r => strReplaceAll r.1 r.2 kk) k

/-- The entries of `sd` whose key is not ignored. -/
def survivingEntries (ignore_keys : List String) (sd : StateDict) : StateDict :=
  sd.filter (fun kv => !(ignore_keys.contains kv.1))

/-- Fold of the filter/rename stage: process entries in insertion order,
drop ignored keys, rename the rest, and fail on a final-key collision. -/
def filteredRenamedAux (ignore_keys : List String) (replace_keys : Dict String)
    (acc : StateDict) : StateDict → Except UtilError StateDict
  | [] => .ok acc
  | (k, v) :: rest =>
      if ignore_keys.contains k then
        filteredRenamedAux ignore_keys replace_keys acc rest
      else
        let k2 := applyReplaceKeys replace_keys k
        if containsKey acc k2 then .error .keyCollisionError
        else filteredRenamedAux ignore_keys replace_keys (acc ++ [(k2, v)]) rest

/-- Modelled from the spec: get_filtered_renamed_state_dict lives in the
util module, which is absent from src/.  Per spec section 4.2: for each key
in insertion order, drop it when it matches an ignore rule (modelled as
exact match, the form the CLI passes), otherwise apply every rename rule by
substring replacement in registration order, failing with a
KeyCollisionError when two surviving keys produce the same final key. -/
def get_filtered_renamed_state_dict (sd : StateDict) (ignore_keys : List String)
    (replace_keys : Dict String) : Except UtilError StateDict :=
  filteredRenamedAux ignore_keys replace_keys [] sd

/-- Exponent/mantissa description of a floating-point element format. -/
structure FloatFormat where
  manBits : ℕ
  minExp : ℤ
  maxFinite : ℚ
  finiteOnly : Bool
  deriving DecidableEq

/-- float8 e4m3fn: finite numbers only, max finite 448. -/
def e4m3fnFmt : FloatFormat := ⟨3, -6, 448, true⟩

/-- float8 e4m3fnuz: finite numbers only, no negative zero, max finite 240. -/
def e4m3fnuzFmt : FloatFormat := ⟨3, -7, 240, true⟩

/-- float8 e5m2: IEEE-style, with infinities; max finite 57344. -/
def e5m2Fmt : FloatFormat := ⟨2, -14, 57344, false⟩

/-- float8 e5m2fnuz: finite numbers only, no negative zero, max finite 57344. -/
def e5m2fnuzFmt : FloatFormat := ⟨2, -15, 57344, true⟩

/-- IEEE binary16. -/
def float16Fmt : FloatFormat := ⟨10, -14, 65504, false⟩

/-- bfloat16; max finite 2^127 x (2 - 2^-7). -/
def bfloat16Fmt : FloatFormat := ⟨7, -126, 338953138925153547590470800371487866880, false⟩

/-- Precision selector of the CLI (the `--full`, `--float16`, ... flags). -/
inductive Precision where
  | full | float16 | bfloat16 | e4m3fn | e4m3fnuz | e5m2 | e5m2fnuz | nf4 | int8
  deriving DecidableEq

/-- The float format a plain (non-quantizing) precision casts to. -/
def Precision.floatFormat : Precision → Option FloatFormat
  | .float16 => some float16Fmt
  | .bfloat16 => some bfloat16Fmt
  | .e4m3fn => some e4m3fnFmt
  | .e4m3fnuz => some e4m3fnuzFmt
  | .e5m2 => some e5m2Fmt
  | .e5m2fnuz => some e5m2fnuzFmt
  | _ => none

/-- The target element dtype of a plain precision. -/
def Precision.targetDType : Precision → Option DType
  | .float16 => some .float16
  | .bfloat16 => some .bfloat16
  | .e4m3fn => some .float8e4m3fn
  | .e4m3fnuz => some .float8e4m3fnuz
  | .e5m2 => some .float8e5m2
  | .e5m2fnuz => some .float8e5m2fnuz
  | _ => none

/-- Absolute value of a rational. -/
def absQ (x : ℚ) : ℚ := if x < 0 then -x else x

/-- Floor of a rational by floor division of numerator by denominator. -/
def floorQ (q : ℚ) : ℤ := q.num.fdiv q.den

/-- Round-to-nearest onto the format's exponent/mantissa grid: quantize the
magnitude to the step of its binade (or of the smallest normal binade below
it, giving subnormal spacing) and restore the sign. -/
def roundToFormat (fmt : FloatFormat) (x : ℚ) : ℚ :=
  if x = 0 then 0
  else
    let a := absQ x
    let e : ℤ := max (Int.log 2 a) fmt.minExp
    let step : ℚ := 2 ^ (e - fmt.manBits)
    let m : ℤ := floorQ (a / step + 1 / 2)
    (if x < 0 then -1 else 1) * (m : ℚ) * step

/-- Modelled from the spec: the scalar cast of the absent util module's
convert_state_dict_dtype.  Finite-only targets saturate: a value beyond the
maximum finite magnitude becomes the maximum finite value with the sign of
the input; in-range values are rounded to the format grid.  Formats with
infinities are modelled without an infinity value, overflow keeping the
rounded rational. -/
def castValue (fmt : FloatFormat) (x : ℚ) : ℚ :=
  if fmt.finiteOnly then
    if fmt.maxFinite < x then fmt.maxFinite
    else if x < -fmt.maxFinite then -fmt.maxFinite
    else roundToFormat fmt x
  else roundToFormat fmt x

/-- Cast one tensor: floating-point tensors move to the target element
format with every value cast; integer, boolean and index tensors pass
through unchanged, as does everything when the target is `full` (or a
quantized kind, which convert_state_dict_dtype does not handle). -/
def castTensor (precision : Precision) (t : Tensor) : Tensor :=
  if t.dtype.isFloatingPoint then
    match precision.floatFormat, precision.targetDType with
    | some fmt, some dt => ⟨t.shape, dt, t.data.map (castValue fmt)⟩
    | _, _ => t
  else t

/-- Modelled from the spec: convert_state_dict_dtype lives in the absent
util module.  Per spec section 4.3 it converts every floating-point
tensor's element format to the target, leaving keys, shapes and
non-floating tensors untouched; the CLI observes this as mutation of the
state dict it passed in, which the embedding renders by using the returned
dict downstream. -/
def convert_state_dict_dtype (sd : StateDict) (precision : Precision) : StateDict :=
  sd.map (fun kv => (kv.1, castTensor precision kv.2))

/-- Modelled from the spec: a tensor is eligible for quantization when it
is floating point, of rank at least 2, and not on the per-architecture
exclusion list (modelled as keys containing "norm"). -/
def quantEligible (k : String) (t : Tensor) : Bool :=
  t.dtype.isFloatingPoint && decide (2 ≤ t.shape.length) && !(containsSub "norm".data k.data)

/-- The packed dtype of a quantization kind. -/
def quantDType (precision : Precision) : DType :=
  if precision = .nf4 then .nf4q else .int8q

/-- Modelled from the spec: quantize_state_dict_for_model lives in the
absent util module.  Eligible tensors are packed into the quantized kind
with dequantization metadata under a derived key suffix; ineligible tensors
pass through. -/
def quantize_state_dict_for_model (sd : StateDict) (model_type model_name : String)
    (precision : Precision) : StateDict :=
  (sd.map (fun kv =>
    if quantEligible kv.1 kv.2 then
      [(kv.1, Tensor.mk kv.2.shape (quantDType precision) kv.2.data),
       (kv.1 ++ ".quant_state", Tensor.mk [1] DType.float32 [])]
    else [kv])).flatten

/-- Modelled from the spec: get_extension_for_state_dict lives in the
absent util module; the extension depends on whether the dict holds any
quantized tensors (the literal strings are not specified by the spec). -/
def get_extension_for_state_dict (sd : StateDict) : String :=
  if sd.any (fun kv => kv.2.dtype.isQuantized) then ".bnb.safetensors"
  else ".safetensors"

/-- On-disk content of one file: a well-formed serialized state dict, or
something unreadable. -/
inductive FileData where
  | good (sd : StateDict)
  | corrupt
  deriving DecidableEq

/-- The modelled filesystem: mapping from path to file content. -/
abbrev FS := Dict FileData

/-- Modelled from the spec: load_state_dict lives in the absent util
module; it materializes the file at the path into a state dict and fails
with a LoadError on missing or corrupt files. -/
def load_state_dict (fs : FS) (path : String) : Except UtilError StateDict :=
  match lookupKey fs path with
  | some (.good sd) => .ok sd
  | _ => .error .loadError

/-- `os.remove`. -/
def removeFile (fs : FS) (path : String) : FS :=
  fs.filter (fun kv => !(kv.1 == path))

/-- The external writer (safetensors save_file), modelled as atomic and
parametrized by whether the write succeeds: on success the path holds the
serialized dict, on failure the filesystem is untouched (a model that is
generous to atomicity claims; the real writer may leave a partial file). -/
def save_file (fs : FS) (path : String) (sd : StateDict) (writeOk : Bool) : FS :=
  if writeOk then updateOne fs path (.good sd) else fs

/-- The pipeline stages of spec section 2. -/
inductive Stage where
  | load | filterRename | cast | split | quantize | write
  deriving DecidableEq, BEq

/-- The convert command (src lines 117-156), from parsing the replace-key
arguments to writing the output file.  The result pairs the filesystem
after the command with the trace of pipeline stages run, in order.  An
uncaught util error aborts the command, leaving the filesystem unchanged;
an existing output file without --overwrite makes it report and return
before writing. -/
def convertCmd (fs : FS) (input_file name : String) (precision : Precision)
    (overwrite : Bool) (ignore_key replace_key : List String)
    (writeOk : Bool) : FS × List Stage :=
  let replace_keys := parseReplaceKeys replace_key
  match load_state_dict fs input_file with
  | .error _ => (fs, [.load])
  | .ok sd0 =>
    match get_filtered_renamed_state_dict sd0 ignore_key replace_keys with
    | .error _ => (fs, [.load, .filterRename])
    | .ok sd1 =>
      let sd2 := convert_state_dict_dtype sd1 precision
      let output_file := name ++ get_extension_for_state_dict sd2
      if containsKey fs output_file then
        if overwrite then
          (save_file (removeFile fs output_file) output_file sd2 writeOk,
           [.load, .filterRename, .cast, .write])
        else (fs, [.load, .filterRename, .cast])
      else (save_file fs output_file sd2 writeOk, [.load, .filterRename, .cast, .write])

/-- The `combined_state_dict.update(state_dict)` loop of the combine
command (src lines 248-251): load each input file in command-line order and
fold it into the accumulator with dict update semantics. -/
def loadAll (fs : FS) (acc : StateDict) : List String → Except UtilError StateDict
  | [] => .ok acc
  | f :: rest =>
      match load_state_dict fs f with
      | .ok sd => loadAll fs (dictUpdate acc sd) rest
      | .error e => .error e

/-- Key-wise merge of a list of state dicts with later dicts overwriting
earlier ones, the pure content of the combine command's update loop. -/
def combineAll (sds : List StateDict) : StateDict :=
  sds.foldl dictUpdate []

/-- The combine command (src lines 226-270).  The trace truncates at a
failed load. -/
def combineCmd (fs : FS) (input_files : List String) (name : String)
    (precision : Precision) (overwrite : Bool)
    (ignore_key replace_key : List String) (writeOk : Bool) : FS × List Stage :=
  let replace_keys := parseReplaceKeys replace_key
  match loadAll fs [] input_files with
  | .error _ => (fs, [.load])
  | .ok combined0 =>
    match get_filtered_renamed_state_dict combined0 ignore_key replace_keys with
    | .error _ => (fs, input_files.map (fun _ => Stage.load) ++ [.filterRename])
    | .ok sd1 =>
      let sd2 := convert_state_dict_dtype sd1 precision
      let output_file := name ++ get_extension_for_state_dict sd2
      let loads := input_files.map (fun _ => Stage.load)
      if containsKey fs output_file then
        if overwrite then
          (save_file (removeFile fs output_file) output_file sd2 writeOk,
           loads ++ [.filterRename, .cast, .write])
        else (fs, loads ++ [.filterRename, .cast])
      else (save_file fs output_file sd2 writeOk, loads ++ [.filterRename, .cast, .write])

/-- The per-sub-model loop of convert-to-diffusers (src lines 198-222):
filter/rename, cast, optionally quantize, then write unless the output
exists without --overwrite, in which case that sub-model is skipped and the
loop continues.  A filter/rename error is an uncaught exception: it aborts
the remaining sub-models. -/
def diffusersLoop (name model_type : String) (precision : Precision)
    (quantization : Option Precision) (overwrite : Bool)
    (ignore_key : List String) (replace_keys : Dict String) (writeOk : Bool) :
    FS × List Stage → List (String × StateDict) → FS × List Stage
  | acc, [] => acc
  | (fs, tr), (model_name, sd) :: rest =>
      match get_filtered_renamed_state_dict sd ignore_key replace_keys with
      | .error _ => (fs, tr ++ [.filterRename])
      | .ok sd1 =>
        let sd2 := convert_state_dict_dtype sd1 precision
        let sd3 := match quantization with
          | some q => quantize_state_dict_for_model sd2 model_type model_name q
          | none => sd2
        let qtr : List Stage := match quantization with
          | some _ => [.quantize]
          | none => []
        let output_file := name ++ "-" ++ model_name ++ get_extension_for_state_dict sd3
        let tr2 := tr ++ [.filterRename, .cast] ++ qtr
        if containsKey fs output_file then
          if overwrite then
            diffusersLoop name model_type precision quantization overwrite
              ignore_key replace_keys writeOk
              (save_file (removeFile fs output_file) output_file sd3 writeOk,
               tr2 ++ [.write]) rest
          else
            diffusersLoop name model_type precision quantization overwrite
              ignore_key replace_keys writeOk (fs, tr2) rest
        else
          diffusersLoop name model_type precision quantization overwrite
            ignore_key replace_keys writeOk
            (save_file fs output_file sd3 writeOk, tr2 ++ [.write]) rest

/-- The convert-to-diffusers command (src lines 158-224).  The splitter
get_diffusers_state_dicts_from_checkpoint lives in the absent util module;
the command embedding is parametric in its outcome `split` (the resolved
model type and the named sub-model state dicts, or a failure), which the
command consumes before any filtering, casting or quantization.  A
quantizing precision (nf4/int8) selects the quantization stage exactly as
src lines 186-189 do. -/
def convertToDiffusersCmd (fs : FS)
    (split : Except UtilError (String × List (String × StateDict)))
    (name : String) (precision : Precision) (overwrite : Bool)
    (ignore_key replace_key : List String) (writeOk : Bool) : FS × List Stage :=
  let replace_keys := parseReplaceKeys replace_key
  let quantization : Option Precision :=
    if precision = .nf4 ∨ precision = .int8 then some precision else none
  match split with
  | .error _ => (fs, [.load, .split])
  | .ok (model_type, state_dicts) =>
      diffusersLoop name model_type precision quantization overwrite
        ignore_key replace_keys writeOk (fs, [.load, .split]) state_dicts

/-- The stage block one sub-model contributes to the convert-to-diffusers
trace when it is written. -/
def modelBlock (quant : Bool) : List Stage :=
  [.filterRename, .cast] ++ (if quant then [.quantize] else []) ++ [.write]

theorem lookupKey_updateOne {α : Type} (d : Dict α) (k : String) (v : α) (k2 : String) :
    lookupKey (updateOne d k v) k2 = if k = k2 then some v else lookupKey d k2 := by
  induction d with
  | nil =>
      simp only [updateOne, lookupKey]
  | cons hd tl ih =>
      obtain ⟨k0, v0⟩ := hd
      by_cases h0 : k0 = k
      · subst h0
        simp only [updateOne, if_pos rfl, lookupKey]
        by_cases h2 : k0 = k2 <;> simp [h2]
      · simp only [updateOne, if_neg h0, lookupKey]
        by_cases h2 : k0 = k2
        · subst h2
          rw [if_pos rfl, if_neg (fun h => h0 h.symm)]
          simp
        · rw [if_neg h2, if_neg h2, ih]

theorem containsKey_updateOne {α : Type} (d : Dict α) (k : String) (v : α) (k2 : String) :
    containsKey (updateOne d k v) k2 = (k = k2 || containsKey d k2) := by
  simp only [containsKey, lookupKey_updateOne]
  by_cases h : k = k2 <;> simp [h]

theorem keysOf_updateOne {α : Type} (d : Dict α) (k : String) (v : α) :
    keysOf (updateOne d k v) =
      if containsKey d k then keysOf d else keysOf d ++ [k] := by
  induction d with
  | nil => simp [updateOne, keysOf, containsKey, lookupKey]
  | cons hd tl ih =>
      obtain ⟨k0, v0⟩ := hd
      by_cases h0 : k0 = k
      · subst h0
        simp [updateOne, keysOf, containsKey, lookupKey]
      · simp only [updateOne, if_neg h0, keysOf, List.map_cons, containsKey, lookupKey,
          if_neg h0] at *
        rw [ih]
        by_cases hc : (lookupKey tl k).isSome <;> simp [hc]

theorem castTensor_shape (p : Precision) (t : Tensor) :
    (castTensor p t).shape = t.shape := by
  unfold castTensor
  split
  · split
    · rfl
    · rfl
  · rfl


theorem containsKey_iff_mem_keysOf {α : Type} (d : Dict α) (k : String) :
    containsKey d k = true ↔ k ∈ keysOf d := by
  induction d with
  | nil => simp [containsKey, lookupKey, keysOf]
  | cons hd tl ih =>
      obtain ⟨k0, v0⟩ := hd
      simp only [containsKey, lookupKey, keysOf, List.map_cons, List.mem_cons]
      by_cases h0 : k0 = k
      · simp [h0]
      · rw [if_neg h0]
        simp only [containsKey, keysOf] at ih
        rw [ih]
        constructor
        · exact Or.inr
        · rintro (h | h)
          · exact absurd h.symm h0
          · exact h

theorem containsKey_eq_keys_contains {α : Type} (d : Dict α) (k : String) :
    containsKey d k = (keysOf d).contains k := by
  cases hc : containsKey d k with
  | true => exact (List.elem_iff.mpr ((containsKey_iff_mem_keysOf d k).mp hc)).symm
  | false =>
      cases hl : (keysOf d).contains k with
      | true =>
          have := (containsKey_iff_mem_keysOf d k).mpr (List.elem_iff.mp hl)
          rw [hc] at this
          cases this
      | false => rfl

theorem lookupKey_dictUpdate_not_contains {α : Type} (d2 : Dict α) (k : String)
    (h : containsKey d2 k = false) :
    ∀ d1, lookupKey (dictUpdate d1 d2) k = lookupKey d1 k := by
  induction d2 with
  | nil => intro d1; rfl
  | cons hd tl ih =>
      intro d1
      obtain ⟨k0, v0⟩ := hd
      simp only [containsKey, lookupKey] at h
      by_cases h0 : k0 = k
      · simp [h0] at h
      · rw [if_neg h0] at h
        simp only [dictUpdate, List.foldl_cons]
        have := ih h (updateOne d1 k0 v0)
        simp only [dictUpdate] at this
        rw [this, lookupKey_updateOne, if_neg h0]

theorem lookupKey_dictUpdate_contains {α : Type} (d2 : Dict α) (k : String)
    (hnd : (keysOf d2).Nodup) (h : containsKey d2 k = true) :
    ∀ d1, lookupKey (dictUpdate d1 d2) k = lookupKey d2 k := by
  induction d2 with
  | nil => simp [containsKey, lookupKey] at h
  | cons hd tl ih =>
      intro d1
      obtain ⟨k0, v0⟩ := hd
      simp only [keysOf, List.map_cons, List.nodup_cons] at hnd
      simp only [dictUpdate, List.foldl_cons, lookupKey]
      by_cases h0 : k0 = k
      · subst h0
        have hnc : containsKey tl k0 = false := by
          cases hc : containsKey tl k0 with
          | true => exact absurd ((containsKey_iff_mem_keysOf tl k0).mp hc) hnd.1
          | false => rfl
        have := lookupKey_dictUpdate_not_contains tl k0 hnc (updateOne d1 k0 v0)
        simp only [dictUpdate] at this
        rw [this, lookupKey_updateOne, if_pos rfl, if_pos rfl]
      · rw [if_neg h0]
        simp only [containsKey, lookupKey, if_neg h0] at h
        exact ih hnd.2 h (updateOne d1 k0 v0)

theorem lookupKey_combineFold_none (sds : List StateDict) (K : String)
    (h : ∀ sd ∈ sds, containsKey sd K = false) :
    ∀ acc, lookupKey (sds.foldl dictUpdate acc) K = lookupKey acc K := by
  induction sds with
  | nil => intro acc; rfl
  | cons s rest ih =>
      intro acc
      simp only [List.foldl_cons]
      rw [ih (fun sd hs => h sd (List.mem_cons_of_mem s hs)) (dictUpdate acc s),
        lookupKey_dictUpdate_not_contains s K (h s (List.mem_cons_self s rest)) acc]

theorem combine_last_wins_aux (sds : List StateDict) (K : String)
    (hnd : ∀ sd ∈ sds, (keysOf sd).Nodup) (j : ℕ) (hj : j < sds.length)
    (hKj : containsKey sds[j] K = true)
    (hlast : ∀ l (hl : l < sds.length), j < l → containsKey sds[l] K = false) :
    ∀ acc, lookupKey (sds.foldl dictUpdate acc) K = lookupKey sds[j] K := by
  induction sds generalizing j with
  | nil => simp at hj
  | cons s rest ih =>
      intro acc
      simp only [List.foldl_cons]
      match j with
      | 0 =>
          simp only [List.getElem_cons_zero] at hKj ⊢
          rw [lookupKey_combineFold_none rest K
            (fun sd hs => by
              obtain ⟨m, hm, rfl⟩ := List.getElem_of_mem hs
              have := hlast (m + 1) (by simpa using Nat.succ_lt_succ hm) (Nat.succ_pos m)
              simpa using this)
            (dictUpdate acc s)]
          exact lookupKey_dictUpdate_contains s K (hnd s (List.mem_cons_self s rest)) hKj acc
      | j + 1 =>
          simp only [List.getElem_cons_succ] at hKj ⊢
          exact ih (fun sd hs => hnd sd (List.mem_cons_of_mem s hs)) j
            (by simpa using Nat.lt_of_succ_lt_succ hj) hKj
            (fun l hl hlt => by
              have := hlast (l + 1) (by simpa using Nat.succ_lt_succ hl) (Nat.succ_lt_succ hlt)
              simpa using this)
            (dictUpdate acc s)

/-- C6: the metadata command, on a state dict holding tensors of shapes
(1000, 1000) and (500,), reports 1,000,500 total parameters and
abbreviates the count as "1.0M" (one decimal digit, because a unit suffix
is present and the scaled value is below 10). -/
theorem metadata_total_params_abbreviation :
    total_params metadataExampleSD = 1000500 ∧
    abbreviateParams (total_params metadataExampleSD) = "1.0M" := by
  constructor <;> rfl

/-- C7: convert_state_dict_dtype leaves the key list and every tensor's
shape unchanged for every state dict and target precision; only the values
(and element formats) stored under the existing keys change, and the
embedding threads the resulting dict onward exactly as the CLI observes the
argument dict mutated in place. -/
theorem convert_dtype_preserves_keys_and_shapes (sd : StateDict) (p : Precision) :
    (convert_state_dict_dtype sd p).map (fun kv => (kv.1, kv.2.shape)) =
      sd.map (fun kv => (kv.1, kv.2.shape)) := by
  unfold convert_state_dict_dtype
  rw [List.map_map]
  apply List.map_congr_left
  intro kv _
  simp [Function.comp, castTensor_shape]


theorem loadAll_ok (fs : FS) :
    ∀ (files : List String) (sds : List StateDict) (acc : StateDict)
      (hlen : files.length = sds.length),
      (∀ m (hm : m < files.length),
        load_state_dict fs files[m] = .ok (sds.get ⟨m, hlen ▸ hm⟩)) →
      loadAll fs acc files = .ok (sds.foldl dictUpdate acc) := by
  intro files
  induction files with
  | nil =>
      intro sds acc hlen h2
      have : sds = [] := List.eq_nil_of_length_eq_zero hlen.symm
      subst this
      rfl
  | cons f rest ih =>
      intro sds acc hlen hload
      match sds with
      | [] => simp at hlen
      | s :: sds2 =>
          have h0 := hload 0 (by simp)
          simp only [List.getElem_cons_zero] at h0
          simp only [loadAll, h0]
          have := ih sds2 (dictUpdate acc s) (by simpa using hlen)
            (fun m hm => by
              have := hload (m + 1) (by simpa using Nat.succ_lt_succ hm)
              simpa using this)
          simpa using this

theorem keysOf_dictUpdate {α : Type} (d2 : Dict α) (hnd : (keysOf d2).Nodup) :
    ∀ d1, keysOf (dictUpdate d1 d2) =
      keysOf d1 ++ (keysOf d2).filter (fun x => !(containsKey d1 x)) := by
  induction d2 with
  | nil => intro d1; simp [dictUpdate, keysOf]
  | cons hd tl ih =>
      intro d1
      obtain ⟨k0, v0⟩ := hd
      simp only [keysOf, List.map_cons, List.nodup_cons] at hnd
      simp only [dictUpdate, List.foldl_cons]
      have step : tl.foldl (fun d kv => updateOne d kv.1 kv.2) (updateOne d1 k0 v0)
          = dictUpdate (updateOne d1 k0 v0) tl := rfl
      rw [step, ih hnd.2 (updateOne d1 k0 v0), keysOf_updateOne]
      have hfc : (keysOf tl).filter (fun x => !(containsKey (updateOne d1 k0 v0) x))
          = (keysOf tl).filter (fun x => !(containsKey d1 x)) := by
        apply List.filter_congr
        intro x hx
        have hxne : ¬(k0 = x) := fun h => hnd.1 (h ▸ hx)
        rw [containsKey_updateOne]
        simp [hxne]
      rw [hfc]
      by_cases hc : containsKey d1 k0
      · rw [if_pos hc]
        simp only [keysOf, List.map_cons, List.filter_cons]
        rw [hc]
        simp
      · rw [if_neg hc]
        simp only [keysOf, List.map_cons, List.filter_cons]
        rw [Bool.not_eq_true] at hc
        rw [hc]
        simp [keysOf]

theorem keysOf_combineFold (sds : List StateDict) (hnd : ∀ sd ∈ sds, (keysOf sd).Nodup) :
    ∀ d, keysOf (sds.foldl dictUpdate d) =
      sds.foldl (fun ks sd => ks ++ (keysOf sd).filter (fun k => !(ks.contains k)))
        (keysOf d) := by
  induction sds with
  | nil => intro d; rfl
  | cons s rest ih =>
      intro d
      simp only [List.foldl_cons]
      rw [ih (fun sd hs => hnd sd (List.mem_cons_of_mem s hs)) (dictUpdate d s),
        keysOf_dictUpdate s (hnd s (List.mem_cons_self s rest)) d]
      congr 1
      congr 1
      apply List.filter_congr
      intro x hx
      rw [containsKey_eq_keys_contains]


theorem filteredRenamedAux_ok_eq (ig : List String) (rk : Dict String) :
    ∀ (l acc out : StateDict), filteredRenamedAux ig rk acc l = .ok out →
      out = acc ++ (survivingEntries ig l).map (fun kv => (applyReplaceKeys rk kv.1, kv.2)) ∧
      ((keysOf acc).Nodup → (keysOf out).Nodup) := by
  intro l
  induction l with
  | nil =>
      intro acc out h
      simp only [filteredRenamedAux] at h
      injection h with h
      subst h
      exact ⟨by simp [survivingEntries], fun h => h⟩
  | cons hd rest ih =>
      intro acc out h
      obtain ⟨k, v⟩ := hd
      by_cases hig : ig.contains k
      · simp only [filteredRenamedAux, hig, if_pos] at h
        have hs : survivingEntries ig ((k, v) :: rest) = survivingEntries ig rest := by
          simp only [survivingEntries, List.filter_cons, hig, Bool.not_true]
          rfl
        rw [hs]
        exact ih acc out h
      · have hig' : ig.contains k = false := by simpa using hig
        by_cases hck : containsKey acc (applyReplaceKeys rk k)
        · exfalso
          simp only [filteredRenamedAux, hig', Bool.false_eq_true, if_false, hck, if_pos] at h
          exact Except.noConfusion h
        · have hck' : containsKey acc (applyReplaceKeys rk k) = false := by simpa using hck
          simp only [filteredRenamedAux, hig', Bool.false_eq_true, if_false, hck',
            if_false] at h
          obtain ⟨heq, hnd⟩ := ih (acc ++ [(applyReplaceKeys rk k, v)]) out h
          constructor
          · rw [heq]
            have hs : survivingEntries ig ((k, v) :: rest)
                = (k, v) :: survivingEntries ig rest := by
              simp only [survivingEntries, List.filter_cons, hig', Bool.not_false, if_pos]
            rw [hs, List.map_cons, List.append_assoc]
            rfl
          · intro hacc
            apply hnd
            simp only [keysOf, List.map_append, List.map_cons, List.map_nil]
            rw [List.nodup_append]
            refine ⟨hacc, List.nodup_singleton _, ?_⟩
            intro a ha hb
            simp only [List.mem_singleton] at hb
            rw [hb] at ha
            exact absurd ((containsKey_iff_mem_keysOf acc _).mpr ha) (by simp [hck'])
  
theorem filteredRenamedAux_error (ig : List String) (rk : Dict String) :
    ∀ (l acc : StateDict) (e : UtilError), filteredRenamedAux ig rk acc l = .error e →
      e = .keyCollisionError := by
  intro l
  induction l with
  | nil =>
      intro acc e h
      simp only [filteredRenamedAux] at h
      cases h
  | cons hd rest ih =>
      intro acc e h
      obtain ⟨k, v⟩ := hd
      by_cases hig : ig.contains k
      · simp only [filteredRenamedAux, hig, if_pos] at h
        exact ih acc e h
      · have hig' : ig.contains k = false := by simpa using hig
        by_cases hck : containsKey acc (applyReplaceKeys rk k)
        · simp only [filteredRenamedAux, hig', Bool.false_eq_true, if_false, hck, if_pos] at h
          injection h with h
          exact h.symm
        · have hck' : containsKey acc (applyReplaceKeys rk k) = false := by simpa using hck
          simp only [filteredRenamedAux, hig', Bool.false_eq_true, if_false, hck',
            if_false] at h
          exact ih (acc ++ [(applyReplaceKeys rk k, v)]) e h

theorem keysOf_survivingEntries (ig : List String) (sd : StateDict) :
    keysOf (survivingEntries ig sd) = (keysOf sd).filter (fun k => !(ig.contains k)) := by
  induction sd with
  | nil => rfl
  | cons hd tl ih =>
      obtain ⟨k, v⟩ := hd
      simp only [survivingEntries, keysOf, List.filter_cons, List.map_cons] at *
      by_cases hig : ig.contains k
      · simp only [hig, Bool.not_true]
        simpa [survivingEntries, keysOf] using ih
      · have hig' : ig.contains k = false := by simpa using hig
        simp only [hig', Bool.not_false, List.map_cons]
        rw [← ih]
        rfl


/-- C2: for the combine command, whenever a key is present in two input
checkpoints, the merged dict holds the value from the file listed later on
the command line: looking the key up in the merge of the loaded dicts gives
the value of the last dict containing it, and the command's load/update
loop computes exactly that merge. -/
theorem combine_later_file_wins (sds : List StateDict) (K : String)
    (hnd : ∀ sd ∈ sds, (keysOf sd).Nodup)
    (i j : ℕ) (hi : i < sds.length) (hj : j < sds.length) (hij : i < j)
    (hKi : containsKey sds[i] K = true)
    (hKj : containsKey sds[j] K = true)
    (hlast : ∀ l (hl : l < sds.length), j < l → containsKey sds[l] K = false) :
    lookupKey (combineAll sds) K = lookupKey sds[j] K ∧
    (∀ (fs : FS) (files : List String) (acc : StateDict)
       (hlen : files.length = sds.length),
       (∀ m (hm : m < files.length),
          load_state_dict fs files[m] = .ok (sds.get ⟨m, hlen ▸ hm⟩)) →
       loadAll fs acc files = .ok (sds.foldl dictUpdate acc)) := by
  constructor
  · exact combine_last_wins_aux sds K hnd j hj hKj hlast []
  · intro fs files acc hlen hload
    exact loadAll_ok fs files sds acc hlen hload

theorem combine_later_file_wins_witness :
    lookupKey (combineAll [[("K", Tensor.mk [1] DType.int64 [])],
        [("K", Tensor.mk [2] DType.int64 [])]]) "K" =
      lookupKey [("K", Tensor.mk [2] DType.int64 [])] "K" ∧
    loadAll [("a", FileData.good [("K", Tensor.mk [1] DType.int64 [])]),
        ("b", FileData.good [("K", Tensor.mk [2] DType.int64 [])])] [] ["a", "b"] =
      .ok ([[("K", Tensor.mk [1] DType.int64 [])],
        [("K", Tensor.mk [2] DType.int64 [])]].foldl dictUpdate []) := by
  have h := combine_later_file_wins
    [[("K", Tensor.mk [1] DType.int64 [])], [("K", Tensor.mk [2] DType.int64 [])]] "K"
    (by decide) 0 1 (by decide) (by decide) (by decide) (by decide) (by decide)
    (by decide)
  exact ⟨h.1, h.2 _ ["a", "b"] [] rfl (by decide)⟩

/-- C9: deterministic key iteration order: the dtype cast preserves the key
list, a successful filter/rename emits the surviving keys in their original
insertion order with the rename applied, and the combine merge iterates
keys of earlier files first and appends the unseen keys of later files in
their order, so equal inputs always serialize keys identically. -/
theorem pipeline_preserves_key_order :
    (∀ (sd : StateDict) (p : Precision),
       keysOf (convert_state_dict_dtype sd p) = keysOf sd) ∧
    (∀ (sd : StateDict) (ig : List String) (rk : Dict String) (out : StateDict),
       get_filtered_renamed_state_dict sd ig rk = .ok out →
       keysOf out =
         ((keysOf sd).filter (fun k => !(ig.contains k))).map (applyReplaceKeys rk)) ∧
    (∀ sds : List StateDict, (∀ sd ∈ sds, (keysOf sd).Nodup) →
       keysOf (combineAll sds) =
         sds.foldl (fun ks sd => ks ++ (keysOf sd).filter (fun k => !(ks.contains k))) []) := by
  refine ⟨?_, ?_, ?_⟩
  · intro sd p
    unfold convert_state_dict_dtype keysOf
    rw [List.map_map]
    rfl
  · intro sd ig rk out h
    obtain ⟨heq, _⟩ := filteredRenamedAux_ok_eq ig rk sd [] out h
    rw [heq, ← keysOf_survivingEntries]
    simp only [List.nil_append, keysOf, List.map_map]
    rfl
  · intro sds hnd
    have h := keysOf_combineFold sds hnd []
    simpa [combineAll, keysOf] using h

theorem pipeline_preserves_key_order_witness :
    keysOf (convert_state_dict_dtype [("x", Tensor.mk [1] DType.int64 [])] .float16) =
      keysOf [("x", Tensor.mk [1] DType.int64 [])] ∧
    keysOf [("c.b", Tensor.mk [2] DType.int64 [])] =
      ((keysOf [("i", Tensor.mk [1] DType.int64 []), ("a.b", Tensor.mk [2] DType.int64 [])]).filter
          (fun k => !(["i"].contains k))).map (applyReplaceKeys [("a", "c")]) ∧
    keysOf (combineAll [[("p", Tensor.mk [1] DType.int64 [])],
        [("p", Tensor.mk [2] DType.int64 []), ("q", Tensor.mk [3] DType.int64 [])]]) =
      [[("p", Tensor.mk [1] DType.int64 [])],
        [("p", Tensor.mk [2] DType.int64 []), ("q", Tensor.mk [3] DType.int64 [])]].foldl
        (fun ks sd => ks ++ (keysOf sd).filter (fun k => !(ks.contains k))) [] := by
  have h := pipeline_preserves_key_order
  exact ⟨h.1 [("x", Tensor.mk [1] DType.int64 [])] .float16,
    h.2.1 [("i", Tensor.mk [1] DType.int64 []), ("a.b", Tensor.mk [2] DType.int64 [])]
      ["i"] [("a", "c")] [("c.b", Tensor.mk [2] DType.int64 [])] (by decide),
    h.2.2 _ (by decide)⟩

/-- C3: get_filtered_renamed_state_dict fails with a KeyCollisionError
whenever two distinct surviving original keys rename to the same final key,
and on success it returns exactly the surviving entries with their renamed
keys, so no surviving tensor is ever silently overwritten by another. -/
theorem filter_rename_collision (sd : StateDict) (ig : List String) (rk : Dict String) :
    ((keysOf sd).Nodup →
      ∀ k1 k2, k1 ∈ keysOf (survivingEntries ig sd) →
        k2 ∈ keysOf (survivingEntries ig sd) → k1 ≠ k2 →
        applyReplaceKeys rk k1 = applyReplaceKeys rk k2 →
        get_filtered_renamed_state_dict sd ig rk = .error .keyCollisionError) ∧
    (∀ out, get_filtered_renamed_state_dict sd ig rk = .ok out →
      out = (survivingEntries ig sd).map (fun kv => (applyReplaceKeys rk kv.1, kv.2))) := by
  constructor
  · intro hnd k1 k2 h1 h2 hne hcol
    cases hres : get_filtered_renamed_state_dict sd ig rk with
    | ok out =>
        exfalso
        obtain ⟨heq, hout⟩ := filteredRenamedAux_ok_eq ig rk sd [] out hres
        have hndout : (keysOf out).Nodup := hout (by simp [keysOf])
        rw [heq] at hndout
        simp only [List.nil_append] at hndout
        have hkeys :
            keysOf ((survivingEntries ig sd).map (fun kv => (applyReplaceKeys rk kv.1, kv.2)))
              = (keysOf (survivingEntries ig sd)).map (applyReplaceKeys rk) := by
          simp only [keysOf, List.map_map]
          rfl
        rw [hkeys] at hndout
        exact hne (List.inj_on_of_nodup_map hndout h1 h2 hcol)
    | error e =>
        rw [filteredRenamedAux_error ig rk sd [] e hres]
  · intro out h
    obtain ⟨heq, _⟩ := filteredRenamedAux_ok_eq ig rk sd [] out h
    simpa using heq

theorem filter_rename_collision_witness :
    get_filtered_renamed_state_dict
        [("a.x", Tensor.mk [1] DType.int64 []), ("b.x", Tensor.mk [2] DType.int64 [])]
        [] [("a", "b")] = .error .keyCollisionError ∧
    [("b.x", Tensor.mk [1] DType.int64 [])] =
      (survivingEntries [] [("a.x", Tensor.mk [1] DType.int64 [])]).map
        (fun kv => (applyReplaceKeys [("a", "b")] kv.1, kv.2)) := by
  have h1 := (filter_rename_collision
    [("a.x", Tensor.mk [1] DType.int64 []), ("b.x", Tensor.mk [2] DType.int64 [])]
    [] [("a", "b")]).1 (by decide) "a.x" "b.x" (by decide) (by decide) (by decide)
    (by decide)
  have h2 := (filter_rename_collision [("a.x", Tensor.mk [1] DType.int64 [])]
    [] [("a", "b")]).2 [("b.x", Tensor.mk [1] DType.int64 [])] (by decide)
  exact ⟨h1, h2⟩


theorem splitAtColon_no_colon (l : List Char) (h : l.contains ':' = false) :
    splitAtColon l = (l, []) := by
  induction l with
  | nil => rfl
  | cons c rest ih =>
      simp only [List.contains_cons, Bool.or_eq_false_iff] at h
      have hc : ¬(c = ':') := by
        intro hc
        subst hc
        simp at h
      simp only [splitAtColon, if_neg hc]
      rw [ih (by simpa using h.2)]

theorem splitAtColon_first (l1 l2 : List Char) (h : l1.contains ':' = false) :
    splitAtColon (l1 ++ ':' :: l2) = (l1, l2) := by
  induction l1 with
  | nil => simp [splitAtColon]
  | cons c rest ih =>
      simp only [List.contains_cons, Bool.or_eq_false_iff] at h
      have hc : ¬(c = ':') := by
        intro hc
        subst hc
        simp at h
      simp only [List.cons_append, splitAtColon, if_neg hc, List.append_eq]
      rw [ih (by simpa using h.2)]

theorem lookupKey_parse_fold (post : List String) (key : String)
    (h : ∀ s ∈ post, (partitionColon s).1 ≠ key) :
    ∀ d, lookupKey (post.foldl
        (fun d s => updateOne d (partitionColon s).1 (partitionColon s).2) d) key
      = lookupKey d key := by
  induction post with
  | nil => intro d; rfl
  | cons s rest ih =>
      intro d
      simp only [List.foldl_cons]
      rw [ih (fun x hx => h x (List.mem_cons_of_mem s hx)), lookupKey_updateOne,
        if_neg (h s (List.mem_cons_self s rest))]

/-- C10: each --replace-key argument splits at its first colon: a
colon-free argument parses to (whole string, empty string) and its
application to a key deletes the occurrences of that whole string; an
argument with several colons keeps everything after the first colon as the
new part; and of several arguments sharing an old part, the last one's new
part is the one stored. -/
theorem replace_key_argument_parsing :
    (∀ s : String, s.data.contains ':' = false → partitionColon s = (s, "")) ∧
    (∀ a b : String, a.data.contains ':' = false →
       partitionColon (a ++ ":" ++ b) = (a, b)) ∧
    (∀ (pre post : List String) (x : String),
       (∀ s ∈ post, (partitionColon s).1 ≠ (partitionColon x).1) →
       lookupKey (parseReplaceKeys (pre ++ x :: post)) (partitionColon x).1 =
         some (partitionColon x).2) ∧
    (∀ s k : String, s.data.contains ':' = false →
       applyReplaceKeys (parseReplaceKeys [s]) k = strReplaceAll s "" k) := by
  refine ⟨?_, ?_, ?_, ?_⟩
  · intro s h
    obtain ⟨l⟩ := s
    simp only [partitionColon, splitAtColon_no_colon l h]
  · intro a b h
    obtain ⟨la⟩ := a
    obtain ⟨lb⟩ := b
    have hdata : (String.mk la ++ ":" ++ String.mk lb).data = la ++ ':' :: lb := by
      simp [String.data_append]
    simp only [partitionColon, hdata, splitAtColon_first la lb h]
  · intro pre post x h
    unfold parseReplaceKeys
    rw [List.foldl_append, List.foldl_cons, lookupKey_parse_fold post _ h,
      lookupKey_updateOne, if_pos rfl]
  · intro s k h
    have hp : partitionColon s = (s, "") := by
      obtain ⟨l⟩ := s
      simp only [partitionColon, splitAtColon_no_colon l h]
    simp only [parseReplaceKeys, List.foldl_cons, List.foldl_nil, hp]
    simp only [applyReplaceKeys, updateOne, List.foldl_cons, List.foldl_nil]

theorem replace_key_argument_parsing_witness :
    partitionColon "abc" = ("abc", "") ∧
    partitionColon ("old" ++ ":" ++ "new:x") = ("old", "new:x") ∧
    lookupKey (parseReplaceKeys (["p:q"] ++ "a:c" :: ["d:e"])) (partitionColon "a:c").1 =
      some (partitionColon "a:c").2 ∧
    applyReplaceKeys (parseReplaceKeys ["ab"]) "xabyab" = strReplaceAll "ab" "" "xabyab" := by
  have h := replace_key_argument_parsing
  exact ⟨h.1 "abc" (by decide), h.2.1 "old" "new:x" (by decide),
    h.2.2.1 ["p:q"] ["d:e"] "a:c" (by decide), h.2.2.2 "ab" "xabyab" (by decide)⟩


theorem castValue_saturates (fmt : FloatFormat) (hfin : fmt.finiteOnly = true)
    (hM : 0 < fmt.maxFinite) (x : ℚ) (hover : fmt.maxFinite < absQ x) :
    castValue fmt x = (if 0 < x then fmt.maxFinite else -fmt.maxFinite) := by
  simp only [castValue, hfin, if_true]
  unfold absQ at hover
  by_cases hx : x < 0
  · rw [if_pos hx] at hover
    rw [if_neg (by linarith), if_pos (by linarith), if_neg (by linarith)]
  · rw [if_neg hx] at hover
    rw [if_pos hover, if_pos (by linarith)]

/-- C8: casting a floating-point tensor to a finite-only 8-bit format
(e4m3-fn, e4m3-fn-uz, e5m2-fn-uz) maps every element whose magnitude
exceeds the format's maximum finite magnitude to the maximum finite value
carrying the input's sign, a representable value whose magnitude never
exceeds the format's bound (no NaN, no overflow artifact). -/
theorem cast_finite_only_saturates (p : Precision)
    (hp : p = .e4m3fn ∨ p = .e4m3fnuz ∨ p = .e5m2fnuz)
    (fmt : FloatFormat) (hfmt : p.floatFormat = some fmt)
    (t : Tensor) (ht : t.dtype.isFloatingPoint = true)
    (i : ℕ) (x : ℚ) (hx : t.data[i]? = some x)
    (hover : fmt.maxFinite < absQ x) :
    (castTensor p t).data[i]? =
      some (if 0 < x then fmt.maxFinite else -fmt.maxFinite) ∧
    absQ (if 0 < x then fmt.maxFinite else -fmt.maxFinite) ≤ fmt.maxFinite := by
  have hfin : fmt.finiteOnly = true ∧ 0 < fmt.maxFinite := by
    rcases hp with h | h | h <;> subst h <;>
      · simp only [Precision.floatFormat, Option.some.injEq] at hfmt
        subst hfmt
        exact ⟨rfl, by decide⟩
  have hdata : (castTensor p t).data = t.data.map (castValue fmt) := by
    rcases hp with h | h | h <;> subst h <;>
      · simp only [Precision.floatFormat, Option.some.injEq] at hfmt
        subst hfmt
        simp [castTensor, ht, Precision.floatFormat, Precision.targetDType]
  constructor
  · rw [hdata, List.getElem?_map, hx, Option.map_some',
      castValue_saturates fmt hfin.1 hfin.2 x hover]
  · have hM := hfin.2
    by_cases h0 : 0 < x
    · rw [if_pos h0]
      unfold absQ
      rw [if_neg (by linarith)]
    · rw [if_neg h0]
      unfold absQ
      rw [if_pos (by linarith)]
      linarith

theorem cast_finite_only_saturates_witness :
    (castTensor Precision.e4m3fn (Tensor.mk [2] DType.float32 [1000, -1000])).data[1]? =
      some ((-448 : ℚ)) ∧
    absQ (-448 : ℚ) ≤ (448 : ℚ) := by
  have h := cast_finite_only_saturates .e4m3fn (Or.inl rfl) e4m3fnFmt rfl
    (Tensor.mk [2] DType.float32 [1000, -1000]) rfl 1 (-1000) (by decide) (by decide)
  refine ⟨?_, by decide⟩
  have h1 := h.1
  rw [h1]
  decide


theorem lookupKey_removeFile_self (fs : FS) (path : String) :
    lookupKey (removeFile fs path) path = none := by
  induction fs with
  | nil => rfl
  | cons hd tl ih =>
      obtain ⟨k, v⟩ := hd
      simp only [removeFile, List.filter_cons]
      by_cases h : k = path
      · subst h
        simpa [removeFile] using ih
      · have hb : (k == path) = false := by simpa using h
        simp only [hb, Bool.not_false, if_pos]
        simpa [lookupKey, h, removeFile] using ih

/-- C4 as stated is false: with --overwrite, convert removes the existing
output file before the writer runs, so a failing write destroys the
pre-existing on-disk state.  Concretely: the output file exists with known
content, the command runs with --overwrite and the write fails, and
afterwards the output path holds nothing. -/
theorem convert_overwrite_failed_write_counterexample :
    lookupKey [("in.ckpt", FileData.good [("k", Tensor.mk [2] DType.int64 [])]),
        ("out.safetensors", FileData.good [("o", Tensor.mk [1] DType.int64 [])])]
      "out.safetensors" = some (FileData.good [("o", Tensor.mk [1] DType.int64 [])]) ∧
    lookupKey (convertCmd
        [("in.ckpt", FileData.good [("k", Tensor.mk [2] DType.int64 [])]),
         ("out.safetensors", FileData.good [("o", Tensor.mk [1] DType.int64 [])])]
        "in.ckpt" "out" .full true [] [] false).1 "out.safetensors" = none := by
  constructor
  · rfl
  · rfl

/-- C4 amended: without --overwrite an existing output file is never
touched (the command aborts before writing); with --overwrite the existing
file is removed before the write begins, so a failure during writing leaves
the output path empty instead of preserving the pre-existing content.
Commit atomicity of the write itself belongs to the external writer. -/
theorem convert_write_window (fs : FS) (input name : String)
    (p : Precision) (ig rk : List String) (sd0 sd1 : StateDict)
    (hload : load_state_dict fs input = .ok sd0)
    (hfilter : get_filtered_renamed_state_dict sd0 ig (parseReplaceKeys rk) = .ok sd1)
    (hout : containsKey fs
      (name ++ get_extension_for_state_dict (convert_state_dict_dtype sd1 p)) = true) :
    (convertCmd fs input name p false ig rk true).1 = fs ∧
    lookupKey (convertCmd fs input name p true ig rk false).1
      (name ++ get_extension_for_state_dict (convert_state_dict_dtype sd1 p)) = none := by
  constructor
  · simp only [convertCmd, hload, hfilter, hout, if_true, Bool.false_eq_true, if_false]
  · simp only [convertCmd, hload, hfilter, hout, if_true, save_file, Bool.false_eq_true,
      if_false]
    exact lookupKey_removeFile_self fs _

theorem convert_write_window_witness :
    (convertCmd [("in.ckpt", FileData.good [("k", Tensor.mk [2] DType.int64 [])]),
        ("out.safetensors", FileData.good [("o", Tensor.mk [1] DType.int64 [])])]
      "in.ckpt" "out" .full false [] [] true).1 =
      [("in.ckpt", FileData.good [("k", Tensor.mk [2] DType.int64 [])]),
       ("out.safetensors", FileData.good [("o", Tensor.mk [1] DType.int64 [])])] ∧
    lookupKey (convertCmd [("in.ckpt", FileData.good [("k", Tensor.mk [2] DType.int64 [])]),
        ("out.safetensors", FileData.good [("o", Tensor.mk [1] DType.int64 [])])]
      "in.ckpt" "out" .full true [] [] false).1 "out.safetensors" = none := by
  have h := convert_write_window
    [("in.ckpt", FileData.good [("k", Tensor.mk [2] DType.int64 [])]),
     ("out.safetensors", FileData.good [("o", Tensor.mk [1] DType.int64 [])])]
    "in.ckpt" "out" .full [] [] [("k", Tensor.mk [2] DType.int64 [])]
    [("k", Tensor.mk [2] DType.int64 [])] (by decide) (by decide) (by decide)
  exact h


/-- C5: when an output file exists and --overwrite was not given, convert
and combine report and return without writing anything (the filesystem is
unchanged and no write stage runs), while convert-to-diffusers skips only
that sub-model's output and still writes the remaining sub-models,
leaving the existing file untouched. -/
theorem existing_output_policy :
    (∀ (fs : FS) (input name : String) (p : Precision) (ig rk : List String)
       (sd0 sd1 : StateDict),
       load_state_dict fs input = .ok sd0 →
       get_filtered_renamed_state_dict sd0 ig (parseReplaceKeys rk) = .ok sd1 →
       containsKey fs (name ++ get_extension_for_state_dict
         (convert_state_dict_dtype sd1 p)) = true →
       convertCmd fs input name p false ig rk true =
         (fs, [.load, .filterRename, .cast])) ∧
    (∀ (fs : FS) (files : List String) (name : String) (p : Precision)
       (ig rk : List String) (c0 sd1 : StateDict),
       loadAll fs [] files = .ok c0 →
       get_filtered_renamed_state_dict c0 ig (parseReplaceKeys rk) = .ok sd1 →
       containsKey fs (name ++ get_extension_for_state_dict
         (convert_state_dict_dtype sd1 p)) = true →
       combineCmd fs files name p false ig rk true =
         (fs, files.map (fun _ => Stage.load) ++ [.filterRename, .cast])) ∧
    (∀ (fs : FS) (mt name : String) (p : Precision) (ig rk : List String)
       (n1 n2 : String) (sd1 sd2 sd1' sd2' : StateDict),
       ¬(p = .nf4 ∨ p = .int8) →
       get_filtered_renamed_state_dict sd1 ig (parseReplaceKeys rk) = .ok sd1' →
       get_filtered_renamed_state_dict sd2 ig (parseReplaceKeys rk) = .ok sd2' →
       containsKey fs (name ++ "-" ++ n1 ++ get_extension_for_state_dict
         (convert_state_dict_dtype sd1' p)) = true →
       containsKey fs (name ++ "-" ++ n2 ++ get_extension_for_state_dict
         (convert_state_dict_dtype sd2' p)) = false →
       convertToDiffusersCmd fs (.ok (mt, [(n1, sd1), (n2, sd2)])) name p false ig rk true =
         (updateOne fs (name ++ "-" ++ n2 ++ get_extension_for_state_dict
             (convert_state_dict_dtype sd2' p))
           (.good (convert_state_dict_dtype sd2' p)),
          [.load, .split, .filterRename, .cast, .filterRename, .cast, .write]) ∧
       lookupKey (convertToDiffusersCmd fs (.ok (mt, [(n1, sd1), (n2, sd2)])) name p
           false ig rk true).1
         (name ++ "-" ++ n1 ++ get_extension_for_state_dict
           (convert_state_dict_dtype sd1' p)) =
         lookupKey fs (name ++ "-" ++ n1 ++ get_extension_for_state_dict
           (convert_state_dict_dtype sd1' p))) := by
  refine ⟨?_, ?_, ?_⟩
  · intro fs input name p ig rk sd0 sd1 hload hfilter hout
    simp only [convertCmd, hload, hfilter, hout, if_true, Bool.false_eq_true, if_false]
  · intro fs files name p ig rk c0 sd1 hload hfilter hout
    simp only [combineCmd, hload, hfilter, hout, if_true, Bool.false_eq_true, if_false]
  · intro fs mt name p ig rk n1 n2 sd1 sd2 sd1' sd2' hq hf1 hf2 hex1 hex2
    have hmain :
        convertToDiffusersCmd fs (.ok (mt, [(n1, sd1), (n2, sd2)])) name p false ig rk true =
          (updateOne fs (name ++ "-" ++ n2 ++ get_extension_for_state_dict
              (convert_state_dict_dtype sd2' p))
            (.good (convert_state_dict_dtype sd2' p)),
           [.load, .split, .filterRename, .cast, .filterRename, .cast, .write]) := by
      simp only [convertToDiffusersCmd, if_neg hq, diffusersLoop, hf1, hf2, hex1, hex2,
        if_true, Bool.false_eq_true, if_false, save_file]
      rfl
    refine ⟨hmain, ?_⟩
    rw [hmain]
    have hne : ¬((name ++ "-" ++ n2 ++ get_extension_for_state_dict
        (convert_state_dict_dtype sd2' p)) = (name ++ "-" ++ n1 ++
        get_extension_for_state_dict (convert_state_dict_dtype sd1' p))) := by
      intro he
      rw [he] at hex2
      rw [hex1] at hex2
      cases hex2
    simp only [lookupKey_updateOne, if_neg hne]

theorem existing_output_policy_witness :
    convertCmd [("in.ckpt", FileData.good [("k", Tensor.mk [2] DType.int64 [])]),
        ("out.safetensors", FileData.good [("o", Tensor.mk [1] DType.int64 [])])]
      "in.ckpt" "out" .full false [] [] true =
      ([("in.ckpt", FileData.good [("k", Tensor.mk [2] DType.int64 [])]),
        ("out.safetensors", FileData.good [("o", Tensor.mk [1] DType.int64 [])])],
       [.load, .filterRename, .cast]) ∧
    combineCmd [("a.ckpt", FileData.good [("k", Tensor.mk [2] DType.int64 [])]),
        ("out.safetensors", FileData.good [("o", Tensor.mk [1] DType.int64 [])])]
      ["a.ckpt"] "out" .full false [] [] true =
      ([("a.ckpt", FileData.good [("k", Tensor.mk [2] DType.int64 [])]),
        ("out.safetensors", FileData.good [("o", Tensor.mk [1] DType.int64 [])])],
       [.load, .filterRename, .cast]) ∧
    convertToDiffusersCmd [("m-unet.safetensors", FileData.good [])]
        (.ok ("sd15", [("unet", [("u", Tensor.mk [2, 2] DType.int64 [])]),
          ("vae", [("v", Tensor.mk [2] DType.int64 [])])]))
        "m" .full false [] [] true =
      (updateOne [("m-unet.safetensors", FileData.good [])] "m-vae.safetensors"
        (.good [("v", Tensor.mk [2] DType.int64 [])]),
       [.load, .split, .filterRename, .cast, .filterRename, .cast, .write]) ∧
    lookupKey (convertToDiffusersCmd [("m-unet.safetensors", FileData.good [])]
        (.ok ("sd15", [("unet", [("u", Tensor.mk [2, 2] DType.int64 [])]),
          ("vae", [("v", Tensor.mk [2] DType.int64 [])])]))
        "m" .full false [] [] true).1 "m-unet.safetensors" =
      lookupKey [("m-unet.safetensors", FileData.good [])] "m-unet.safetensors" := by
  have h := existing_output_policy
  have h1 := h.1 [("in.ckpt", FileData.good [("k", Tensor.mk [2] DType.int64 [])]),
      ("out.safetensors", FileData.good [("o", Tensor.mk [1] DType.int64 [])])]
    "in.ckpt" "out" .full [] [] [("k", Tensor.mk [2] DType.int64 [])]
    [("k", Tensor.mk [2] DType.int64 [])] (by decide) (by decide) (by decide)
  have h2 := h.2.1 [("a.ckpt", FileData.good [("k", Tensor.mk [2] DType.int64 [])]),
      ("out.safetensors", FileData.good [("o", Tensor.mk [1] DType.int64 [])])]
    ["a.ckpt"] "out" .full [] [] [("k", Tensor.mk [2] DType.int64 [])]
    [("k", Tensor.mk [2] DType.int64 [])] (by decide) (by decide) (by decide)
  have h3 := h.2.2 [("m-unet.safetensors", FileData.good [])] "sd15" "m" .full [] []
    "unet" "vae" [("u", Tensor.mk [2, 2] DType.int64 [])]
    [("v", Tensor.mk [2] DType.int64 [])] [("u", Tensor.mk [2, 2] DType.int64 [])]
    [("v", Tensor.mk [2] DType.int64 [])] (by decide) (by decide) (by decide)
    (by decide) (by decide)
  exact ⟨h1, h2, h3.1, h3.2⟩


theorem diffusersLoop_trace (name mt : String) (p : Precision) (q : Option Precision)
    (ig : List String) (rkd : Dict String) (w : Bool) :
    ∀ (sds : List (String × StateDict)) (fs : FS) (tr : List Stage),
      (∀ ms ∈ sds, ∃ o, get_filtered_renamed_state_dict ms.2 ig rkd = .ok o) →
      (diffusersLoop name mt p q true ig rkd w (fs, tr) sds).2 =
        tr ++ (List.replicate sds.length (modelBlock q.isSome)).flatten := by
  intro sds
  induction sds with
  | nil =>
      intro fs tr h
      simp [diffusersLoop]
  | cons ms rest ih =>
      intro fs tr h
      obtain ⟨mn, msd⟩ := ms
      obtain ⟨o, ho⟩ := h (mn, msd) (List.mem_cons_self (mn, msd) rest)
      simp only at ho
      cases q with
      | none =>
          simp only [diffusersLoop, ho]
          by_cases hc : containsKey fs (name ++ "-" ++ mn ++
              get_extension_for_state_dict (convert_state_dict_dtype o p))
          · simp only [hc, if_true]
            rw [ih _ _ (fun x hx => h x (List.mem_cons_of_mem (mn, msd) hx))]
            simp [modelBlock, List.replicate_succ]
          · have hc' : containsKey fs (name ++ "-" ++ mn ++
                get_extension_for_state_dict (convert_state_dict_dtype o p)) = false := by
              simpa using hc
            simp only [hc', Bool.false_eq_true, if_false]
            rw [ih _ _ (fun x hx => h x (List.mem_cons_of_mem (mn, msd) hx))]
            simp [modelBlock, List.replicate_succ]
      | some qq =>
          simp only [diffusersLoop, ho]
          by_cases hc : containsKey fs (name ++ "-" ++ mn ++
              get_extension_for_state_dict (quantize_state_dict_for_model
                (convert_state_dict_dtype o p) mt mn qq))
          · simp only [hc, if_true]
            rw [ih _ _ (fun x hx => h x (List.mem_cons_of_mem (mn, msd) hx))]
            simp [modelBlock, List.replicate_succ]
          · have hc' : containsKey fs (name ++ "-" ++ mn ++
                get_extension_for_state_dict (quantize_state_dict_for_model
                  (convert_state_dict_dtype o p) mt mn qq)) = false := by
              simpa using hc
            simp only [hc', Bool.false_eq_true, if_false]
            rw [ih _ _ (fun x hx => h x (List.mem_cons_of_mem (mn, msd) hx))]
            simp [modelBlock, List.replicate_succ]

/-- C1 as stated is false for convert-to-diffusers: the command splits the
checkpoint into sub-models first and only then runs filter/rename and the
dtype cast on each split.  Concretely, in the emitted stage trace the split
stage strictly precedes the first filter/rename stage. -/
theorem pipeline_order_counterexample :
    ((convertToDiffusersCmd [] (.ok ("sd15", [("unet", [("u", Tensor.mk [2] DType.int64 [])])]))
        "m" .full false [] [] true).2).indexOf Stage.split <
      ((convertToDiffusersCmd [] (.ok ("sd15", [("unet", [("u", Tensor.mk [2] DType.int64 [])])]))
        "m" .full false [] [] true).2).indexOf Stage.filterRename := by
  decide

/-- C1 amended: convert and combine run Loader, Filter/Rename, Caster,
Writer in that order once per output; convert-to-diffusers runs Loader then
Classifier/Splitter first, and only then, per sub-model, Filter/Rename,
Caster, the Quantizer when a quantizing precision was chosen, and the
Writer. -/
theorem pipeline_stage_order :
    (∀ (fs : FS) (input name : String) (p : Precision) (ig rk : List String)
       (sd0 sd1 : StateDict),
       load_state_dict fs input = .ok sd0 →
       get_filtered_renamed_state_dict sd0 ig (parseReplaceKeys rk) = .ok sd1 →
       containsKey fs (name ++ get_extension_for_state_dict
         (convert_state_dict_dtype sd1 p)) = false →
       (convertCmd fs input name p false ig rk true).2 =
         [.load, .filterRename, .cast, .write]) ∧
    (∀ (fs : FS) (files : List String) (name : String) (p : Precision)
       (ig rk : List String) (c0 sd1 : StateDict),
       loadAll fs [] files = .ok c0 →
       get_filtered_renamed_state_dict c0 ig (parseReplaceKeys rk) = .ok sd1 →
       containsKey fs (name ++ get_extension_for_state_dict
         (convert_state_dict_dtype sd1 p)) = false →
       (combineCmd fs files name p false ig rk true).2 =
         files.map (fun _ => Stage.load) ++ [.filterRename, .cast, .write]) ∧
    (∀ (fs : FS) (mt name : String) (p : Precision) (ig rk : List String)
       (sds : List (String × StateDict)) (w : Bool),
       (∀ ms ∈ sds, ∃ o,
          get_filtered_renamed_state_dict ms.2 ig (parseReplaceKeys rk) = .ok o) →
       (convertToDiffusersCmd fs (.ok (mt, sds)) name p true ig rk w).2 =
         [.load, .split] ++
           (List.replicate sds.length
             (modelBlock (decide (p = .nf4 ∨ p = .int8)))).flatten) := by
  refine ⟨?_, ?_, ?_⟩
  · intro fs input name p ig rk sd0 sd1 hload hfilter hout
    simp only [convertCmd, hload, hfilter, hout, Bool.false_eq_true, if_false]
  · intro fs files name p ig rk c0 sd1 hload hfilter hout
    simp only [combineCmd, hload, hfilter, hout, Bool.false_eq_true, if_false]
  · intro fs mt name p ig rk sds w h
    by_cases hq : p = .nf4 ∨ p = .int8
    · simp only [convertToDiffusersCmd, if_pos hq]
      rw [diffusersLoop_trace name mt p (some p) ig (parseReplaceKeys rk) w sds fs
        [.load, .split] h]
      simp [hq]
    · simp only [convertToDiffusersCmd, if_neg hq]
      rw [diffusersLoop_trace name mt p none ig (parseReplaceKeys rk) w sds fs
        [.load, .split] h]
      simp [hq]

theorem pipeline_stage_order_witness :
    (convertCmd [("in.ckpt", FileData.good [("k", Tensor.mk [2] DType.int64 [])])]
      "in.ckpt" "out" .full false [] [] true).2 =
      [.load, .filterRename, .cast, .write] ∧
    (combineCmd [("a.ckpt", FileData.good [("k", Tensor.mk [2] DType.int64 [])])]
      ["a.ckpt"] "out" .full false [] [] true).2 =
      ["a.ckpt"].map (fun _ => Stage.load) ++ [.filterRename, .cast, .write] ∧
    (convertToDiffusersCmd []
        (.ok ("flux-dev", [("unet", [("u", Tensor.mk [2, 2] DType.float32 [])]),
          ("vae", [("v", Tensor.mk [2] DType.float32 [])])]))
        "m" .nf4 true [] [] true).2 =
      [.load, .split] ++
        (List.replicate 2 (modelBlock (decide
          ((Precision.nf4 = .nf4 ∨ (Precision.nf4 = .int8))))) ).flatten := by
  have h := pipeline_stage_order
  have h1 := h.1 [("in.ckpt", FileData.good [("k", Tensor.mk [2] DType.int64 [])])]
    "in.ckpt" "out" .full [] [] [("k", Tensor.mk [2] DType.int64 [])]
    [("k", Tensor.mk [2] DType.int64 [])] (by decide) (by decide) (by decide)
  have h2 := h.2.1 [("a.ckpt", FileData.good [("k", Tensor.mk [2] DType.int64 [])])]
    ["a.ckpt"] "out" .full [] [] [("k", Tensor.mk [2] DType.int64 [])]
    [("k", Tensor.mk [2] DType.int64 [])] (by decide) (by decide) (by decide)
  have h3 := h.2.2 [] "flux-dev" "m" .nf4 [] []
    [("unet", [("u", Tensor.mk [2, 2] DType.float32 [])]),
     ("vae", [("v", Tensor.mk [2] DType.float32 [])])] true
    (by
      intro ms hms
      fin_cases hms
      · exact ⟨[("u", Tensor.mk [2, 2] DType.float32 [])], by decide⟩
      · exact ⟨[("v", Tensor.mk [2] DType.float32 [])], by decide⟩)
  exact ⟨h1, h2, h3⟩

end CheckpointTools
